import Mathlib

/-!
Verification of the `failable` library: the three-state tagged value
(`pending` / `success` / `failure`), its constructors and predicates
(`src/common/index.ts`), the matcher `when` and the observing matcher
`Failable.when` (`src/failable`), the generic listener registry
`Dispatcher` (`src/dispatcher/index.ts`), and the six-state `Loadable`
machine (`src/mut/`).

JavaScript values are modelled by the inductive `JSVal`; objects are
association lists of own fields.  JavaScript exceptions are modelled by
`Except String`: a thrown `TypeError` becomes `.error msg`.  Listener
invocation is observed through explicit traces: `dispatch` returns the
ordered list of (handler, data) invocations it performs.
-/

/-- Model of a JavaScript value: `null`, `undefined`, primitives, or an
object given by its own fields in insertion order. -/
inductive JSVal where
  | null : JSVal
  | undef : JSVal
  | bool : Bool → JSVal
  | num : Int → JSVal
  | str : String → JSVal
  | obj : List (String × JSVal) → JSVal
deriving Repr

namespace JSVal

/-- Field lookup in an object's own fields (first binding wins). -/
def lookupField : List (String × JSVal) → String → Option JSVal
  | [], _ => none
  | (k, v) :: rest, key => if k = key then some v else lookupField rest key

/-- `x.error` on an object: the field's value, or `undefined` when absent.
The library's typed predicates only ever receive objects. -/
def errorField : JSVal → Option JSVal
  | obj fields => lookupField fields "error"
  | _ => none

/-- `x.data` on an object, `undefined` when the field is absent. -/
def dataField : JSVal → JSVal
  | obj fields => (lookupField fields "data").getD undef
  | _ => undef

end JSVal

/-- `success(data)`: `freeze({data, error: false})`. -/
def success (data : JSVal) : JSVal :=
  JSVal.obj [("data", data), ("error", JSVal.bool false)]

/-- `failure(data)`: `freeze({data, error: true})`. -/
def failure (data : JSVal) : JSVal :=
  JSVal.obj [("data", data), ("error", JSVal.bool true)]

/-- The `pending` singleton: `freeze({error: null})`. -/
def pendingV : JSVal :=
  JSVal.obj [("error", JSVal.null)]

/-- `isSuccess(f)`: `f.error === false`. -/
def isSuccess (f : JSVal) : Bool :=
  match f.errorField with
  | some (JSVal.bool false) => true
  | _ => false

/-- `isFailure(f)`: `f.error === true`. -/
def isFailure (f : JSVal) : Bool :=
  match f.errorField with
  | some (JSVal.bool true) => true
  | _ => false

/-- `isPending(f)`: `f.error === null`. -/
def isPending (f : JSVal) : Bool :=
  match f.errorField with
  | some JSVal.null => true
  | _ => false

/-- `isFailable(x)`: `'error' in x && (x.error === false || x.error === true
|| x.error === null)`.  The `in` operator throws a `TypeError` when its
right operand is not an object (`null`, `undefined`, or a primitive). -/
def isFailable (x : JSVal) : Except String Bool :=
  match x with
  | JSVal.obj fields =>
      .ok (match JSVal.lookupField fields "error" with
           | some JSVal.null => true
           | some (JSVal.bool _) => true
           | _ => false)
  | _ => .error "TypeError: cannot use in operator to search for error"

/-- `toFailable(f)`: run the thunk; wrap a normal return in `success` and a
thrown error in `failure`.  The thunk's behaviour is its result: either a
returned value or a thrown one. -/
def toFailable (f : Except JSVal JSVal) : JSVal :=
  match f with
  | .ok v => success v
  | .error e => failure e

/-! ## Dispatcher (`src/dispatcher/index.ts`) -/

/-- JavaScript string lowercasing (`toLowerCase`), modelled per character
(the ASCII case our state names use). -/
def jsToLower (s : String) : String := String.mk (s.data.map Char.toLower)

/-- JavaScript object-key assignment `m[k] = v`: overwrite an existing
binding in place, otherwise append the new key in insertion order. -/
def setKey {H : Type} : List (String × List H) → String → List H → List (String × List H)
  | [], k, v => [(k, v)]
  | (k', v') :: rest, k, v =>
      if k' = k then (k', v) :: rest else (k', v') :: setKey rest k v

/-- Key lookup in the handler map. -/
def getKey {H : Type} : List (String × List H) → String → Option (List H)
  | [], _ => none
  | (k', v') :: rest, k => if k' = k then some v' else getKey rest k

/-- `class Dispatcher<State>`: the private `allHandlers` object plus the
public `validStates` array.  Handlers are identified by values of an
arbitrary type `H` with decidable (reference) equality. -/
structure Dispatcher (H : Type) where
  validStates : List String
  allHandlers : List (String × List H)

namespace Dispatcher

variable {H : Type} [DecidableEq H]

/-- The constructor: `for (const state of validStates) handlers[state] = []`. -/
def create (validStates : List String) : Dispatcher H :=
  { validStates := validStates
    allHandlers := validStates.foldl (fun m s => setKey m s []) [] }

/-- `handlersOf(state)`: look up `allHandlers[state.toLowerCase()]`; throw
a `TypeError` when the lookup comes back undefined. -/
def handlersOf (d : Dispatcher H) (state : String) : Except String (List H) :=
  match getKey d.allHandlers (jsToLower state) with
  | none => .error (state ++ " is not a valid state")
  | some handlers => .ok handlers

/-- `dispatch(state, data)`: invoke every handler registered for `state` in
registration order with `data`.  The invocations are returned as a trace. -/
def dispatch (d : Dispatcher H) (state : String) (data : JSVal) :
    Except String (List (H × JSVal)) :=
  match d.handlersOf state with
  | .error e => .error e
  | .ok handlers => .ok (handlers.map (fun h => (h, data)))

/-- `addListener(state, f)`: `handlersOf(state).push(f)`.  The pushed-to
array lives at the lowercased key, where `handlersOf` found it. -/
def addListener (d : Dispatcher H) (state : String) (f : H) :
    Except String (Dispatcher H) :=
  match d.handlersOf state with
  | .error e => .error e
  | .ok handlers =>
      .ok { d with
            allHandlers := setKey d.allHandlers (jsToLower state) (handlers ++ [f]) }

/-- The body of `removeListener`'s scan:
`for (let i = 0; i < handlers.length; i++) if (handlers[i] === f) handlers.splice(i, 1)`.
A splice at index `i` shifts the next element into slot `i`, which the
`i++` then skips. -/
def removeLoop : List H → H → List H
  | [], _ => []
  | x :: xs, f =>
      if x = f then
        match xs with
        | [] => []
        | y :: ys => y :: removeLoop ys f
      else x :: removeLoop xs f

/-- `removeListener(state, f?)`: with no handler, `splice(0, length)`
empties the state's list; with a handler, run the splice scan. -/
def removeListener (d : Dispatcher H) (state : String) (f : Option H) :
    Except String (Dispatcher H) :=
  match d.handlersOf state with
  | .error e => .error e
  | .ok handlers =>
      .ok { d with
            allHandlers := setKey d.allHandlers (jsToLower state)
              (match f with
               | none => []
               | some f => removeLoop handlers f) }

/-- The loop inside `clear()`: for each remaining valid state, look its
list up (throwing on a failed lookup) and empty it. -/
def clearLoop : List String → Dispatcher H → Except String (Dispatcher H)
  | [], acc => .ok acc
  | s :: rest, acc =>
      match acc.handlersOf s with
      | .error e => .error e
      | .ok _ =>
          clearLoop rest
            { acc with allHandlers := setKey acc.allHandlers (jsToLower s) [] }

/-- `clear()`: for every valid state, look its list up and empty it. -/
def clearAll (d : Dispatcher H) : Except String (Dispatcher H) :=
  clearLoop d.validStates d

end Dispatcher

/-! ## The matcher `when` (`src/failable`) -/

/-- The handler set taken by `when`: `success` and `failure` are required,
`pending` is optional.  A handler may itself throw, hence `Except`. -/
structure WhenOptions (α : Type) where
  success : JSVal → Except String α
  failure : JSVal → Except String α
  pending : Option (Unit → Except String α)

/-- The message of the `TypeError` thrown by `when` on a pending value
without a pending handler. -/
def whenPendingError : String :=
  "Called `when` without a pending handler when the failable is pending"

/-- The plain matcher `when(f, options)`: dispatch on the discriminant;
success and failure handlers receive `f.data`; the pending handler runs
only when present; otherwise throw the invariant-violation `TypeError`. -/
def whenMatch {α : Type} (f : JSVal) (options : WhenOptions α) : Except String α :=
  if isSuccess f then options.success f.dataField
  else if isFailure f then options.failure f.dataField
  else
    match options.pending with
    | some onPending => if isPending f then onPending () else .error whenPendingError
    | none => .error whenPendingError

namespace Failable

variable {H : Type} [DecidableEq H] {α : Type}

/-- The module-level valid states: `['pending', 'failure', 'success']`. -/
def states : List String := ["pending", "failure", "success"]

/-- The module-level singleton registry: `new Dispatcher<State>(states)`. -/
def dispatcherInit (H : Type) : Dispatcher H := Dispatcher.create states

/-- `Failable.dispatch(state, data)`: forwards to the singleton registry. -/
def dispatch (d : Dispatcher H) (state : String) (data : JSVal) :
    Except String (List (H × JSVal)) :=
  d.dispatch state data

/-- The built-in broadcast handler set `dispatchOptions`: each of the three
handlers forwards to `dispatch` with the matching state name. -/
def dispatchOptions (d : Dispatcher H) : WhenOptions (List (H × JSVal)) :=
  { success := fun data => dispatch d "success" data
    pending := some (fun _ => dispatch d "pending" JSVal.undef)
    failure := fun data => dispatch d "failure" data }

/-- The observing matcher `Failable.when(f, options)`:
`_when(f, dispatchOptions); return _when(f, options);`.
The first component is the broadcast phase's result (its invocation
trace, or the error it threw); the second is the caller-facing match,
which runs only when the broadcast phase did not throw. -/
def when (d : Dispatcher H) (f : JSVal) (options : WhenOptions α) :
    Except String (List (H × JSVal)) × Option (Except String α) :=
  match whenMatch f (dispatchOptions d) with
  | .error e => (.error e, none)
  | .ok trace => (.ok trace, some (whenMatch f options))

/-- `Failable.addListener(state, f)`: forwards to the singleton registry. -/
def addListener (d : Dispatcher H) (state : String) (f : H) :
    Except String (Dispatcher H) :=
  d.addListener state f

/-- `Failable.removeListener(state, f?)`: forwards to the registry. -/
def removeListener (d : Dispatcher H) (state : String) (f : Option H) :
    Except String (Dispatcher H) :=
  d.removeListener state f

end Failable

/-! ## Loadable (`src/mut/loadable`) -/

/-- `Loadable.State`: the six-state enumeration. -/
inductive LState where
  | empty | pending | success | reloading | failure | retrying
deriving DecidableEq, Repr

/-- A `Loadable<T>`: observable `state` (initially `empty`) and `data`
(initially `undefined`; set to a `T` by `success` or an `Error` by
`failure`, never cleared by `loading`). -/
structure Loadable (T E : Type) where
  state : LState
  data : Option (T ⊕ E)

/-- Lifecycle-hook invocations (`didBecomeSuccess` / `didBecomeFailure` /
`didBecomeLoading`), recorded as a trace. -/
inductive LHook (T E : Type) where
  | didBecomeSuccess (data : T)
  | didBecomeFailure (error : E)
  | didBecomeLoading
deriving DecidableEq, Repr

namespace Loadable

variable {T E : Type}

/-- A freshly constructed Loadable: state `empty`, data `undefined`. -/
def init : Loadable T E := { state := .empty, data := none }

/-- `success(data)`: set state to `success`, store the value, invoke
`didBecomeSuccess`. -/
def success (l : Loadable T E) (data : T) : Loadable T E × List (LHook T E) :=
  ({ l with state := .success, data := some (Sum.inl data) },
   [.didBecomeSuccess data])

/-- `failure(error)`: set state to `failure`, store the error, invoke
`didBecomeFailure`. -/
def failure (l : Loadable T E) (error : E) : Loadable T E × List (LHook T E) :=
  ({ l with state := .failure, data := some (Sum.inr error) },
   [.didBecomeFailure error])

/-- `loading()`: `empty`→`pending`, `success`→`reloading`,
`failure`→`retrying`, each followed by `didBecomeLoading`; in every other
state return `this` without invoking the hook.  `data` is never touched. -/
def loading (l : Loadable T E) : Loadable T E × List (LHook T E) :=
  match l.state with
  | .empty => ({ l with state := .pending }, [.didBecomeLoading])
  | .success => ({ l with state := .reloading }, [.didBecomeLoading])
  | .failure => ({ l with state := .retrying }, [.didBecomeLoading])
  | _ => (l, [])

/-- `pending()`: an alias that simply invokes `loading()`. -/
def pending (l : Loadable T E) : Loadable T E × List (LHook T E) :=
  l.loading

end Loadable

/-- One invocation of a state-changing Loadable operation. -/
inductive LOp (T E : Type) where
  | success (data : T)
  | failure (error : E)
  | pending
  | loading
deriving Repr

/-- Apply one operation (discarding the hook trace). -/
def LOp.apply {T E : Type} (op : LOp T E) (l : Loadable T E) : Loadable T E :=
  match op with
  | .success data => (l.success data).1
  | .failure error => (l.failure error).1
  | .pending => l.pending.1
  | .loading => l.loading.1

/-- Run a sequence of operations from a given Loadable. -/
def runOps {T E : Type} (ops : List (LOp T E)) (l : Loadable T E) : Loadable T E :=
  ops.foldl (fun acc op => op.apply acc) l

/-! ## Helper lemmas -/

/-- The three discriminant predicates are pairwise exclusive on every
JavaScript value: they test a single field against three distinct
literals. -/
theorem discr_excl (f : JSVal) :
    (isSuccess f = true → isFailure f = false ∧ isPending f = false)
    ∧ (isFailure f = true → isSuccess f = false ∧ isPending f = false)
    ∧ (isPending f = true → isSuccess f = false ∧ isFailure f = false) := by
  unfold isSuccess isFailure isPending
  rcases he : f.errorField with _ | v
  · simp
  · cases v with
    | bool b => cases b <;> simp
    | _ => simp

/-- Looking a key up after assigning it. -/
theorem getKey_setKey {H : Type} (m : List (String × List H)) (k' : String)
    (v : List H) (k : String) :
    getKey (setKey m k' v) k = if k = k' then some v else getKey m k := by
  induction m with
  | nil => simp [setKey, getKey, eq_comm]
  | cons p rest ih =>
      obtain ⟨pk, pv⟩ := p
      by_cases hpk : pk = k'
      · subst hpk
        by_cases hk : pk = k
        · subst hk
          simp [setKey, getKey]
        · have hk' : ¬k = pk := fun h => hk h.symm
          simp [setKey, getKey, hk, hk']
      · by_cases hk : pk = k
        · subst hk
          have hpk' : ¬pk = k' := hpk
          simp [setKey, getKey, hpk']
        · have hk' : ¬k = pk := fun h => hk h.symm
          simp [setKey, getKey, hpk, hk, hk', ih]

/-- The constructor's fold populates exactly the keys listed in
`validStates`, each with an empty list. -/
theorem getKey_create_fold {H : Type} (ss : List String)
    (m : List (String × List H)) (k : String) :
    getKey (ss.foldl (fun m s => setKey m s []) m) k =
      if k ∈ ss then some [] else getKey m k := by
  induction ss generalizing m with
  | nil => simp
  | cons s rest ih =>
      by_cases hmem : k ∈ rest
      · simp [List.foldl_cons, ih, hmem]
      · by_cases hk : k = s
        · subst hk
          simp [List.foldl_cons, ih, hmem, getKey_setKey]
        · simp [List.foldl_cons, ih, hmem, hk, getKey_setKey]

/-- `handlersOf` on a freshly constructed dispatcher: an empty bucket when
the lowercased name is a valid state, a `TypeError` otherwise. -/
theorem handlersOf_create {H : Type} (validStates : List String) (s : String) :
    (Dispatcher.create (H := H) validStates).handlersOf s =
      if (jsToLower s) ∈ validStates then .ok []
      else .error (s ++ " is not a valid state") := by
  unfold Dispatcher.handlersOf Dispatcher.create
  rw [getKey_create_fold]
  by_cases h : (jsToLower s) ∈ validStates <;> simp [h, getKey]

/-! ## Claim theorems -/

/-- C7: every value built by `success`, `failure`, or the `pending`
singleton satisfies exactly one of `isSuccess`, `isFailure`,
`isPending`. -/
theorem constructors_exactly_one_predicate (t e : JSVal) :
    (isSuccess (success t) = true ∧ isFailure (success t) = false
      ∧ isPending (success t) = false)
    ∧ (isSuccess (failure e) = false ∧ isFailure (failure e) = true
      ∧ isPending (failure e) = false)
    ∧ (isSuccess pendingV = false ∧ isFailure pendingV = false
      ∧ isPending pendingV = true) :=
  ⟨⟨rfl, rfl, rfl⟩, ⟨rfl, rfl, rfl⟩, ⟨rfl, rfl, rfl⟩⟩

/-- C6: `toFailable` wraps a normal return as a success carrying the
returned value, wraps a thrown error as a failure carrying that very
error, and never produces a pending value. -/
theorem toFailable_bridge (r : Except JSVal JSVal) :
    (∀ v, r = .ok v →
      isSuccess (toFailable r) = true ∧ (toFailable r).dataField = v)
    ∧ (∀ e, r = .error e →
      isFailure (toFailable r) = true ∧ (toFailable r).dataField = e)
    ∧ isPending (toFailable r) = false := by
  refine ⟨?_, ?_, ?_⟩
  · rintro v rfl
    exact ⟨rfl, rfl⟩
  · rintro e rfl
    exact ⟨rfl, rfl⟩
  · cases r <;> rfl

/-- C6 witness: `toFailable` of a thunk returning `42` is a success whose
payload is `42`. -/
theorem toFailable_bridge_witness :
    isSuccess (toFailable (.ok (JSVal.num 42))) = true
    ∧ (toFailable (.ok (JSVal.num 42))).dataField = JSVal.num 42 :=
  (toFailable_bridge (.ok (JSVal.num 42))).1 (JSVal.num 42) rfl

/-- C5 counterexample: `isFailable(null)` throws a `TypeError` (the `in`
operator rejects a non-object right operand), so the guard does not
tolerate every input. -/
theorem isFailable_null_throws :
    isFailable JSVal.null =
      .error "TypeError: cannot use in operator to search for error" :=
  rfl

/-- C5 (amended): on every object input, `isFailable` returns true exactly
when the `error` field holds `null`, `true`, or `false`, and never throws;
on `null`, `undefined`, and non-object primitives it throws a `TypeError`
instead of returning. -/
theorem isFailable_guard :
    (∀ fields, ∃ b, isFailable (JSVal.obj fields) = .ok b
      ∧ (b = true ↔ (JSVal.lookupField fields "error" = some JSVal.null
          ∨ JSVal.lookupField fields "error" = some (JSVal.bool true)
          ∨ JSVal.lookupField fields "error" = some (JSVal.bool false))))
    ∧ isFailable JSVal.null =
        .error "TypeError: cannot use in operator to search for error"
    ∧ isFailable JSVal.undef =
        .error "TypeError: cannot use in operator to search for error"
    ∧ (∀ b, isFailable (JSVal.bool b) =
        .error "TypeError: cannot use in operator to search for error")
    ∧ (∀ n, isFailable (JSVal.num n) =
        .error "TypeError: cannot use in operator to search for error")
    ∧ (∀ s, isFailable (JSVal.str s) =
        .error "TypeError: cannot use in operator to search for error") := by
  refine ⟨?_, rfl, rfl, fun _ => rfl, fun _ => rfl, fun _ => rfl⟩
  intro fields
  rcases hl : JSVal.lookupField fields "error" with _ | v
  · exact ⟨false, by simp [isFailable, hl], by simp [hl]⟩
  · cases v with
    | null => exact ⟨true, by simp [isFailable, hl], by simp [hl]⟩
    | bool b => exact ⟨true, by simp [isFailable, hl], by cases b <;> simp [hl]⟩
    | undef => exact ⟨false, by simp [isFailable, hl], by simp [hl]⟩
    | num n => exact ⟨false, by simp [isFailable, hl], by simp [hl]⟩
    | str s => exact ⟨false, by simp [isFailable, hl], by simp [hl]⟩
    | obj l => exact ⟨false, by simp [isFailable, hl], by simp [hl]⟩

/-- C1: matching a pending value with no pending handler throws the
invariant-violation `TypeError`; supplying a pending handler instead makes
`when` return that handler's value and throw nothing. -/
theorem when_pending_strictness {α : Type} (f : JSVal) (hp : isPending f = true)
    (s fl : JSVal → Except String α) :
    whenMatch f { success := s, failure := fl, pending := none } =
      .error whenPendingError
    ∧ ∀ c : α,
      whenMatch f { success := s, failure := fl, pending := some (fun _ => .ok c) } =
        .ok c := by
  obtain ⟨hs, hf⟩ := (discr_excl f).2.2 hp
  constructor
  · simp [whenMatch, hs, hf]
  · intro c
    simp [whenMatch, hs, hf, hp]

/-- C1 witness: the pending singleton matched without a pending handler
throws; matched with `pending: () => "p"` it returns `"p"`. -/
theorem when_pending_strictness_witness :
    whenMatch pendingV { success := fun _ => .ok "s"
                         failure := fun _ => .ok "f"
                         pending := none } = .error whenPendingError
    ∧ whenMatch pendingV { success := fun _ => .ok "s"
                           failure := fun _ => .ok "f"
                           pending := some (fun _ => .ok "p") } = .ok "p" :=
  ⟨(when_pending_strictness pendingV rfl (fun _ => .ok "s") (fun _ => .ok "f")).1,
   (when_pending_strictness pendingV rfl (fun _ => .ok "s") (fun _ => .ok "f")).2 "p"⟩

/-- C3: `loading()` sends `empty` to `pending`, `success` to `reloading`,
and `failure` to `retrying`, never touches the stored payload, is a no-op
from the three busy states, and fires `didBecomeLoading` exactly when the
state actually changed. -/
theorem loadable_loading_transitions {T E : Type} (l : Loadable T E) :
    (l.state = .empty →
      l.loading = ({ l with state := .pending }, [LHook.didBecomeLoading]))
    ∧ (l.state = .success →
      l.loading = ({ l with state := .reloading }, [LHook.didBecomeLoading]))
    ∧ (l.state = .failure →
      l.loading = ({ l with state := .retrying }, [LHook.didBecomeLoading]))
    ∧ (l.state = .pending ∨ l.state = .reloading ∨ l.state = .retrying →
      l.loading = (l, []))
    ∧ (l.loading.1).data = l.data
    ∧ ((l.loading.1).state ≠ l.state → l.loading.2 = [LHook.didBecomeLoading])
    ∧ ((l.loading.1).state = l.state → l.loading.2 = ([] : List (LHook T E))) := by
  obtain ⟨st, dat⟩ := l
  cases st <;> simp [Loadable.loading]

/-- C3 witness: a success Loadable holding `7` reloads on `loading()`,
keeping the payload and firing `didBecomeLoading`. -/
theorem loadable_loading_transitions_witness :
    ({ state := .success, data := some (Sum.inl 7) } : Loadable Nat Nat).loading =
      ({ state := .reloading, data := some (Sum.inl 7) }, [LHook.didBecomeLoading]) :=
  (loadable_loading_transitions
    { state := .success, data := some (Sum.inl 7) }).2.1 rfl

/-- One operation keeps a Loadable out of the `empty` state once it has
left it: no operation ever assigns `empty`. -/
theorem loadable_apply_preserves_nonempty {T E : Type} (op : LOp T E)
    (l : Loadable T E) (h : l.state ≠ LState.empty) :
    (op.apply l).state ≠ LState.empty := by
  cases op with
  | success d => simp [LOp.apply, Loadable.success]
  | failure e => simp [LOp.apply, Loadable.failure]
  | pending =>
      obtain ⟨st, dat⟩ := l
      cases st <;> simp_all [LOp.apply, Loadable.pending, Loadable.loading]
  | loading =>
      obtain ⟨st, dat⟩ := l
      cases st <;> simp_all [LOp.apply, Loadable.loading]

/-- Sequences of operations preserve being away from `empty`. -/
theorem runOps_preserves_nonempty {T E : Type} (ops : List (LOp T E))
    (l : Loadable T E) (h : l.state ≠ LState.empty) :
    (runOps ops l).state ≠ LState.empty := by
  induction ops generalizing l with
  | nil => simpa [runOps] using h
  | cons op rest ih =>
      have hstep : runOps (op :: rest) l = runOps rest (op.apply l) := by
        simp [runOps]
      rw [hstep]
      exact ih (op.apply l) (loadable_apply_preserves_nonempty op l h)

/-- C9: starting from the initial empty Loadable, once a prefix of
operations has moved the state away from `empty`, no further operations
ever bring it back to `empty`. -/
theorem loadable_empty_never_reentered {T E : Type} (pre post : List (LOp T E))
    (h : (runOps pre Loadable.init).state ≠ LState.empty) :
    (runOps (pre ++ post) Loadable.init).state ≠ LState.empty := by
  have hsplit : runOps (pre ++ post) (Loadable.init (T := T) (E := E)) =
      runOps post (runOps pre Loadable.init) := by
    simp [runOps, List.foldl_append]
  rw [hsplit]
  exact runOps_preserves_nonempty post _ h

/-- C9 witness: after a success, a loading/pending/failure tail never
reaches `empty` again. -/
theorem loadable_empty_never_reentered_witness :
    (runOps ([LOp.success 3] ++ [LOp.loading, LOp.pending, LOp.failure 0])
      (Loadable.init (T := Nat) (E := Nat))).state ≠ LState.empty :=
  loadable_empty_never_reentered [LOp.success 3]
    [LOp.loading, LOp.pending, LOp.failure 0] (by decide)

/-- `handlersOf` succeeds exactly when the lowercased key is present. -/
theorem handlersOf_ok {H : Type} (d : Dispatcher H) (s : String) (L : List H) :
    d.handlersOf s = .ok L ↔ getKey d.allHandlers (jsToLower s) = some L := by
  unfold Dispatcher.handlersOf
  rcases hg : getKey d.allHandlers (jsToLower s) with _ | L' <;> simp

/-- C2: `Failable.when` first broadcasts through its own complete
built-in handler set — which therefore never throws on any recognised
discriminant — and only afterwards runs the caller-facing match; for a
pending value whose caller omitted the pending handler, every registered
pending listener is invoked (in order), and only the caller-facing match
then throws. -/
theorem observing_when_two_phase {H α : Type} [DecidableEq H] (d : Dispatcher H)
    (Lp Ls Lf : List H)
    (hp : d.handlersOf "pending" = .ok Lp)
    (hs : d.handlersOf "success" = .ok Ls)
    (hf : d.handlersOf "failure" = .ok Lf)
    (f : JSVal) (options : WhenOptions α) :
    (isSuccess f = true →
      Failable.when d f options =
        (.ok (Ls.map fun h => (h, f.dataField)), some (whenMatch f options)))
    ∧ (isFailure f = true →
      Failable.when d f options =
        (.ok (Lf.map fun h => (h, f.dataField)), some (whenMatch f options)))
    ∧ (isPending f = true →
      Failable.when d f options =
        (.ok (Lp.map fun h => (h, JSVal.undef)), some (whenMatch f options))
      ∧ (options.pending = none →
          whenMatch f options = .error whenPendingError)) := by
  refine ⟨?_, ?_, ?_⟩
  · intro h1
    have hb : whenMatch f (Failable.dispatchOptions d) =
        .ok (Ls.map fun h => (h, f.dataField)) := by
      simp [whenMatch, Failable.dispatchOptions, Failable.dispatch,
        Dispatcher.dispatch, h1, hs]
    simp [Failable.when, hb]
  · intro h2
    obtain ⟨hs0, _⟩ := (discr_excl f).2.1 h2
    have hb : whenMatch f (Failable.dispatchOptions d) =
        .ok (Lf.map fun h => (h, f.dataField)) := by
      simp [whenMatch, Failable.dispatchOptions, Failable.dispatch,
        Dispatcher.dispatch, h2, hs0, hf]
    simp [Failable.when, hb]
  · intro h3
    obtain ⟨hs0, hf0⟩ := (discr_excl f).2.2 h3
    have hb : whenMatch f (Failable.dispatchOptions d) =
        .ok (Lp.map fun h => (h, JSVal.undef)) := by
      simp [whenMatch, Failable.dispatchOptions, Failable.dispatch,
        Dispatcher.dispatch, h3, hs0, hf0, hp]
    refine ⟨by simp [Failable.when, hb], ?_⟩
    intro hnone
    simp [whenMatch, hs0, hf0, hnone]

/-- C2 witness: with one registered pending listener and a caller handler
set lacking `pending`, matching the pending singleton invokes the listener
with `undefined` and the caller-facing phase throws. -/
theorem observing_when_two_phase_witness :
    Failable.when
        ({ validStates := ["pending", "failure", "success"]
           allHandlers := [("pending", [0]), ("failure", []), ("success", [])] }
          : Dispatcher Nat)
        pendingV
        ({ success := fun _ => .ok "s"
           failure := fun _ => .ok "f"
           pending := none } : WhenOptions String) =
      (.ok [((0 : Nat), JSVal.undef)], some (.error whenPendingError)) := by
  have h := (observing_when_two_phase
    ({ validStates := ["pending", "failure", "success"]
       allHandlers := [("pending", [0]), ("failure", []), ("success", [])] }
      : Dispatcher Nat)
    [0] [] [] rfl rfl rfl pendingV
    ({ success := fun _ => .ok "s"
       failure := fun _ => .ok "f"
       pending := none } : WhenOptions String)).2.2 rfl
  rw [h.1, h.2 rfl]
  rfl

/-- C8 counterexample: in a dispatcher where `h1 = 0` was already
registered under state `"b"`, adding `h1` and `h2 = 1` under `"a"` and
then dispatching `"b"` still invokes `h1` — so "dispatch(s', x) invokes
neither h1 nor h2" does not hold for every dispatcher. -/
theorem dispatch_isolation_counterexample :
    ((match (Dispatcher.create (H := Nat) ["a", "b"]).addListener "b" 0 with
      | .error e => .error e
      | .ok d1 =>
        match d1.addListener "a" 0 with
        | .error e => .error e
        | .ok d2 =>
            match d2.addListener "a" 1 with
            | .error e => .error e
            | .ok d3 => d3.dispatch "b" (JSVal.num 5))
      : Except String (List (Nat × JSVal))) =
      .ok [((0 : Nat), JSVal.num 5)] := rfl

/-- C8 (amended): after `addListener(s, h1)` then `addListener(s, h2)`,
`dispatch(s, x)` invokes `h1(x)` then `h2(x)` in that order (after any
previously registered listeners of s); and provided the lowercased names
of s and s' differ and neither h1 nor h2 was already registered under s',
`dispatch(s', x)` invokes neither. -/
theorem dispatch_order_and_isolation {H : Type} [DecidableEq H]
    (d : Dispatcher H) (s s' : String) (h1 h2 : H) (x : JSVal)
    (Ls Ls' : List H)
    (hL : d.handlersOf s = .ok Ls) (hL' : d.handlersOf s' = .ok Ls')
    (hne : jsToLower s ≠ jsToLower s')
    (h1n : h1 ∉ Ls') (h2n : h2 ∉ Ls') :
    ∃ d1 d2, d.addListener s h1 = .ok d1 ∧ d1.addListener s h2 = .ok d2
      ∧ d2.dispatch s x = .ok ((Ls ++ [h1, h2]).map fun h => (h, x))
      ∧ d2.dispatch s' x = .ok (Ls'.map fun h => (h, x))
      ∧ ∀ p ∈ Ls'.map (fun h => (h, x)), p.1 ≠ h1 ∧ p.1 ≠ h2 := by
  have hg : getKey d.allHandlers (jsToLower s) = some Ls :=
    (handlersOf_ok d s Ls).mp hL
  have hg' : getKey d.allHandlers (jsToLower s') = some Ls' :=
    (handlersOf_ok d s' Ls').mp hL'
  refine ⟨⟨d.validStates, setKey d.allHandlers (jsToLower s) (Ls ++ [h1])⟩,
    ⟨d.validStates,
      setKey (setKey d.allHandlers (jsToLower s) (Ls ++ [h1])) (jsToLower s)
        (Ls ++ [h1, h2])⟩, ?_, ?_, ?_, ?_, ?_⟩
  · simp [Dispatcher.addListener, hL]
  · have h1s : (⟨d.validStates,
        setKey d.allHandlers (jsToLower s) (Ls ++ [h1])⟩
          : Dispatcher H).handlersOf s = .ok (Ls ++ [h1]) := by
      rw [handlersOf_ok]
      simp [getKey_setKey]
    simp [Dispatcher.addListener, h1s]
  · have h2s : (⟨d.validStates,
        setKey (setKey d.allHandlers (jsToLower s) (Ls ++ [h1])) (jsToLower s)
          (Ls ++ [h1, h2])⟩ : Dispatcher H).handlersOf s =
        .ok (Ls ++ [h1, h2]) := by
      rw [handlersOf_ok]
      simp [getKey_setKey]
    simp [Dispatcher.dispatch, h2s]
  · have h2s' : (⟨d.validStates,
        setKey (setKey d.allHandlers (jsToLower s) (Ls ++ [h1])) (jsToLower s)
          (Ls ++ [h1, h2])⟩ : Dispatcher H).handlersOf s' = .ok Ls' := by
      rw [handlersOf_ok]
      simp [getKey_setKey, Ne.symm hne, hg']
    simp [Dispatcher.dispatch, h2s']
  · intro p hp
    obtain ⟨h, hmem, rfl⟩ := List.mem_map.mp hp
    exact ⟨fun he => h1n (he ▸ hmem), fun he => h2n (he ▸ hmem)⟩

/-- C8 witness: on a fresh dispatcher over states `a` and `b`, adding two
listeners under `a` makes `dispatch('a', x)` run them in order while
`dispatch('b', x)` runs nothing. -/
theorem dispatch_order_and_isolation_witness :
    ∃ d1 d2,
      (Dispatcher.create (H := Nat) ["a", "b"]).addListener "a" 0 = .ok d1
      ∧ d1.addListener "a" 1 = .ok d2
      ∧ d2.dispatch "a" (JSVal.num 9) =
          .ok [(0, JSVal.num 9), (1, JSVal.num 9)]
      ∧ d2.dispatch "b" (JSVal.num 9) = .ok [] := by
  obtain ⟨d1, d2, ha, hb, hc, hd, -⟩ :=
    dispatch_order_and_isolation (Dispatcher.create (H := Nat) ["a", "b"])
      "a" "b" 0 1 (JSVal.num 9) [] [] rfl rfl (by decide) (by simp) (by simp)
  exact ⟨d1, d2, ha, hb, hc, hd⟩

/-- The splice scan never lengthens the list. -/
theorem removeLoop_length_le {H : Type} [DecidableEq H] :
    ∀ (l : List H) (f : H), (Dispatcher.removeLoop l f).length ≤ l.length
  | [], _ => Nat.le_refl 0
  | x :: xs, f => by
      cases xs with
      | nil => by_cases hx : x = f <;> simp [Dispatcher.removeLoop, hx]
      | cons y ys =>
          by_cases hx : x = f
          · have h1 := removeLoop_length_le ys f
            simp only [Dispatcher.removeLoop, if_pos hx, List.length_cons]
            omega
          · have h1 := removeLoop_length_le (y :: ys) f
            simp only [Dispatcher.removeLoop, if_neg hx, List.length_cons] at h1 ⊢
            omega

/-- A scan over a list not containing the handler removes nothing. -/
theorem removeLoop_not_mem {H : Type} [DecidableEq H] :
    ∀ (l : List H) (f : H), f ∉ l → Dispatcher.removeLoop l f = l
  | [], _, _ => rfl
  | x :: xs, f, hn => by
      have hx : ¬x = f := fun h => hn (h ▸ List.mem_cons_self x xs)
      have hxs : f ∉ xs := fun h => hn (List.mem_cons_of_mem x h)
      cases xs with
      | nil => simp [Dispatcher.removeLoop, hx]
      | cons y ys =>
          simp only [Dispatcher.removeLoop, if_neg hx]
          rw [removeLoop_not_mem (y :: ys) f hxs]

/-- A scan over a list containing the handler removes at least one
element. -/
theorem removeLoop_length_lt {H : Type} [DecidableEq H] :
    ∀ (l : List H) (f : H), f ∈ l → (Dispatcher.removeLoop l f).length < l.length
  | [], _, hm => absurd hm (List.not_mem_nil _)
  | x :: xs, f, hm => by
      cases xs with
      | nil =>
          have hx : x = f := by
            rcases List.mem_cons.mp hm with h | h
            · exact h.symm
            · exact absurd h (List.not_mem_nil f)
          simp [Dispatcher.removeLoop, hx]
      | cons y ys =>
          by_cases hx : x = f
          · have h1 := removeLoop_length_le ys f
            simp only [Dispatcher.removeLoop, if_pos hx, List.length_cons]
            omega
          · have hxs : f ∈ y :: ys := by
              rcases List.mem_cons.mp hm with h | h
              · exact absurd h.symm hx
              · exact h
            have h1 := removeLoop_length_lt (y :: ys) f hxs
            simp only [Dispatcher.removeLoop, if_neg hx, List.length_cons] at h1 ⊢
            omega

/-- When no two consecutive entries both equal the handler, one scan
removes every occurrence. -/
theorem removeLoop_nonadjacent {H : Type} [DecidableEq H] :
    ∀ (l : List H) (f : H), List.Chain' (fun a b => a ≠ f ∨ b ≠ f) l →
      f ∉ Dispatcher.removeLoop l f
  | [], _, _ => List.not_mem_nil _
  | x :: xs, f, hch => by
      cases xs with
      | nil =>
          by_cases hx : x = f <;> simp [Dispatcher.removeLoop, hx]
          exact fun h => hx h.symm
      | cons y ys =>
          by_cases hx : x = f
          · subst hx
            have hy : y ≠ x := by
              have := (List.chain'_cons.mp hch).1
              tauto
            have hrec := removeLoop_nonadjacent ys x
              ((List.chain'_cons.mp hch).2.tail)
            simp only [Dispatcher.removeLoop, if_pos rfl]
            intro hmem
            rcases List.mem_cons.mp hmem with h | h
            · exact hy h.symm
            · exact hrec h
          · have hrec := removeLoop_nonadjacent (y :: ys) f hch.tail
            simp only [Dispatcher.removeLoop, if_neg hx]
            intro hmem
            rcases List.mem_cons.mp hmem with h | h
            · exact hx h.symm
            · exact hrec h

/-- C4 counterexample: with `f = 0` registered at positions 0 and 2 of
state `a`'s list `[0, 1, 0]`, a single `removeListener('a', 0)` call
removes both occurrences, leaving `[1]` instead of the `[1, 0]` that
removing only the first occurrence would leave. -/
theorem removeListener_first_only_counterexample :
    ((match ({ validStates := ["a"], allHandlers := [("a", [0, 1, 0])] }
        : Dispatcher Nat).removeListener "a" (some 0) with
      | .error e => .error e
      | .ok d => d.handlersOf "a") : Except String (List Nat)) =
      .ok [1] := rfl

/-- C4 (amended): `removeListener(state, f)` runs a single left-to-right
splice scan: it removes the first occurrence of f and every later
occurrence that does not immediately follow a removed one (so non-adjacent
duplicates are all removed in one call, while each adjacent duplicate pair
leaves one survivor and needs a further call); with the callback omitted
it empties the state's list; it is a no-op (not an error) when f is
absent. -/
theorem removeListener_splice_scan {H : Type} [DecidableEq H]
    (d : Dispatcher H) (s : String) (handlers : List H)
    (h : d.handlersOf s = .ok handlers) (f : H) :
    (d.removeListener s none =
      .ok ⟨d.validStates, setKey d.allHandlers (jsToLower s) []⟩)
    ∧ (d.removeListener s (some f) =
      .ok ⟨d.validStates, setKey d.allHandlers (jsToLower s)
            (Dispatcher.removeLoop handlers f)⟩)
    ∧ (f ∉ handlers → Dispatcher.removeLoop handlers f = handlers)
    ∧ (f ∈ handlers →
        (Dispatcher.removeLoop handlers f).length < handlers.length)
    ∧ (List.Chain' (fun a b => a ≠ f ∨ b ≠ f) handlers →
        f ∉ Dispatcher.removeLoop handlers f)
    ∧ (∀ t : List H,
        Dispatcher.removeLoop (f :: f :: t) f = f :: Dispatcher.removeLoop t f) := by
  refine ⟨?_, ?_, removeLoop_not_mem handlers f, removeLoop_length_lt handlers f,
    removeLoop_nonadjacent handlers f, ?_⟩
  · simp [Dispatcher.removeListener, h]
  · simp [Dispatcher.removeListener, h]
  · intro t
    simp [Dispatcher.removeLoop]

/-- C4 witness: on the bucket `[0, 1, 0]`, one `removeListener('a', 0)`
call yields the scan's result, which is strictly shorter; omitting the
callback empties the bucket. -/
theorem removeListener_splice_scan_witness :
    (({ validStates := ["a"], allHandlers := [("a", [0, 1, 0])] }
        : Dispatcher Nat).removeListener "a" (some 0) =
      .ok ⟨["a"], setKey [("a", [0, 1, 0])] (jsToLower "a")
            (Dispatcher.removeLoop [0, 1, 0] 0)⟩)
    ∧ (Dispatcher.removeLoop [0, 1, 0] 0).length < 3
    ∧ (({ validStates := ["a"], allHandlers := [("a", [0, 1, 0])] }
        : Dispatcher Nat).removeListener "a" none =
      .ok ⟨["a"], setKey [("a", [0, 1, 0])] (jsToLower "a") []⟩) :=
  ⟨(removeListener_splice_scan
      { validStates := ["a"], allHandlers := [("a", [0, 1, 0])] }
      "a" [0, 1, 0] rfl 0).2.1,
   (removeListener_splice_scan
      { validStates := ["a"], allHandlers := [("a", [0, 1, 0])] }
      "a" [0, 1, 0] rfl 0).2.2.2.1 (by decide),
   (removeListener_splice_scan
      { validStates := ["a"], allHandlers := [("a", [0, 1, 0])] }
      "a" [0, 1, 0] rfl 0).1⟩

/-- If some remaining valid state's lowercased key is absent from the
accumulator's handler map, the `clear()` loop throws. -/
theorem clearLoop_error {H : Type} [DecidableEq H] :
    ∀ (ss : List String) (acc : Dispatcher H) (s : String), s ∈ ss →
      getKey acc.allHandlers (jsToLower s) = none →
      ∃ m, Dispatcher.clearLoop ss acc = .error m
  | [], _, _, hmem, _ => absurd hmem (List.not_mem_nil _)
  | s' :: rest, acc, s, hmem, hkey => by
      rcases hg : acc.handlersOf s' with e | L
      · exact ⟨e, by simp [Dispatcher.clearLoop, hg]⟩
      · have hgk : getKey acc.allHandlers (jsToLower s') = some L :=
          (handlersOf_ok acc s' L).mp hg
        have hne : jsToLower s' ≠ jsToLower s := by
          intro he
          rw [he, hkey] at hgk
          exact Option.noConfusion hgk
        have hkey' : getKey (setKey acc.allHandlers (jsToLower s') [])
            (jsToLower s) = none := by
          rw [getKey_setKey]
          have hne' : ¬jsToLower s = jsToLower s' := fun h => hne h.symm
          simp [hne', hkey]
        have hmem' : s ∈ rest := by
          rcases List.mem_cons.mp hmem with h | h
          · exact absurd (congrArg jsToLower h.symm) hne
          · exact h
        obtain ⟨m, hm⟩ := clearLoop_error rest
          ⟨acc.validStates, setKey acc.allHandlers (jsToLower s') []⟩ s hmem' hkey'
        exact ⟨m, by simp [Dispatcher.clearLoop, hg, hm]⟩

/-- C10 counterexample: for the registry constructed over the valid set
`["A", "a"]`, `handlersOf("A")` does not throw — the lowercased lookup
silently lands on the `"a"` bucket — although `"A"` contains an uppercase
character and belongs to the valid set. -/
theorem handlersOf_uppercase_counterexample :
    (Dispatcher.create (H := Nat) ["A", "a"]).handlersOf "A" = .ok []
    ∧ "A" ∈ (Dispatcher.create (H := Nat) ["A", "a"]).validStates
    ∧ jsToLower "A" = "a" :=
  ⟨rfl, by decide, rfl⟩

/-- C10 (amended): the constructor stores each valid state name verbatim
while `handlersOf` lowercases its argument; hence for a valid state name
whose lowercased form is not itself among the valid names, `handlersOf`
— and with it `addListener`, `removeListener`, `dispatch`, and `clear`
— throws the invalid-state `TypeError` even though the name belongs to
the registry's fixed valid set.  (When the lowercased form is also a
valid name the lookup instead silently returns that other bucket.) -/
theorem handlersOf_case_mismatch {H : Type} [DecidableEq H]
    (validStates : List String) (s : String)
    (hmem : s ∈ validStates) (hlow : jsToLower s ∉ validStates) :
    (Dispatcher.create (H := H) validStates).handlersOf s =
      .error (s ++ " is not a valid state")
    ∧ (∀ f : H, (Dispatcher.create (H := H) validStates).addListener s f =
        .error (s ++ " is not a valid state"))
    ∧ (∀ f : Option H,
        (Dispatcher.create (H := H) validStates).removeListener s f =
        .error (s ++ " is not a valid state"))
    ∧ (∀ x, (Dispatcher.create (H := H) validStates).dispatch s x =
        .error (s ++ " is not a valid state"))
    ∧ ∃ m, (Dispatcher.create (H := H) validStates).clearAll = .error m := by
  have h0 : (Dispatcher.create (H := H) validStates).handlersOf s =
      .error (s ++ " is not a valid state") := by
    rw [handlersOf_create]
    simp [hlow]
  refine ⟨h0, fun f => ?_, fun f => ?_, fun x => ?_, ?_⟩
  · simp [Dispatcher.addListener, h0]
  · simp [Dispatcher.removeListener, h0]
  · simp [Dispatcher.dispatch, h0]
  · have hkey : getKey (Dispatcher.create (H := H) validStates).allHandlers
        (jsToLower s) = none := by
      unfold Dispatcher.create
      rw [getKey_create_fold]
      simp [hlow, getKey]
    exact clearLoop_error validStates (Dispatcher.create validStates) s hmem hkey

/-- C10 witness: on a registry constructed with the single valid state
`"Foo"`, operating with the name `"Foo"` itself throws, and `clear()`
throws as well. -/
theorem handlersOf_case_mismatch_witness :
    (Dispatcher.create (H := Nat) ["Foo"]).handlersOf "Foo" =
      .error ("Foo" ++ " is not a valid state")
    ∧ (Dispatcher.create (H := Nat) ["Foo"]).dispatch "Foo" (JSVal.num 1) =
      .error ("Foo" ++ " is not a valid state")
    ∧ ∃ m, (Dispatcher.create (H := Nat) ["Foo"]).clearAll = .error m :=
  ⟨(handlersOf_case_mismatch ["Foo"] "Foo" (by decide) (by decide)).1,
   (handlersOf_case_mismatch ["Foo"] "Foo" (by decide) (by decide)).2.2.2.1
     (JSVal.num 1),
   (handlersOf_case_mismatch ["Foo"] "Foo" (by decide) (by decide)).2.2.2.2⟩
